import Mathlib

/-!
Verification of the CCQA mhtml-to-json extraction core
(`src/python/mhtml_to_json.py`) against its natural-language specification.

The DOM is modelled as a rose tree (`HNode`): tag, attribute list, direct
text, ordered children.  Python dicts used as JSON contexts are modelled as
insertion-ordered association lists with nullable values (`Fields`), plus an
optional list of answer sub-contexts for the `Answers` key (`JsonCtx`).

lxml semantics mirrored by the embedding:
- iterating over an element's children pre-fetches the next sibling before
  the loop body runs, so removing or moving the current child does not skip
  the following sibling;
- `node.addnext(e)` moves `e` to the position immediately after `node` in
  `node`'s parent, so a loop that `addnext`s every child of `node` ends up
  re-inserting them in reversed document order;
- `parent.remove(node)` detaches the whole subtree rooted at `node`,
  including `node`'s direct text.
-/

/-- Python's substring containment test `pat in s` (on characters). -/
def strContains (s pat : String) : Bool :=
  (List.range (s.length + 1)).any (fun i => List.isPrefixOf pat.data (s.data.drop i))

/-- A DOM element: tag name, attributes, direct text, ordered children. -/
inductive HNode where
  | mk : String → List (String × String) → Option String → List HNode → HNode

def HNode.tag : HNode → String
  | .mk t _ _ _ => t

def HNode.attrs : HNode → List (String × String)
  | .mk _ a _ _ => a

def HNode.text : HNode → Option String
  | .mk _ _ x _ => x

def HNode.children : HNode → List HNode
  | .mk _ _ _ cs => cs

/-- `node.get(k)`: attribute lookup. -/
def getAttr (n : HNode) (k : String) : Option String :=
  n.attrs.lookup k

/-- `k in node.keys()`: attribute presence. -/
def hasAttr (n : HNode) (k : String) : Bool :=
  (getAttr n k).isSome

/-- The match test of `find_itemprop`: the node carries an `itemprop`
attribute and `prop` occurs in it as a substring. -/
def matchesProp (n : HNode) (prop : String) : Bool :=
  hasAttr n "itemprop" && strContains ((getAttr n "itemprop").getD "") prop

mutual
/-- `find_itemprop(node, prop)`: pre-order depth-first search for the first
node whose `itemprop` attribute contains `prop` as a substring. -/
def find_itemprop (n : HNode) (prop : String) : Option HNode :=
  match n with
  | HNode.mk t a x cs =>
    if matchesProp (HNode.mk t a x cs) prop then some (HNode.mk t a x cs)
    else find_itemprop_list cs prop

/-- The `for child in node` loop of `find_itemprop`: first non-`None`
recursive result wins. -/
def find_itemprop_list (cs : List HNode) (prop : String) : Option HNode :=
  match cs with
  | [] => none
  | c :: rest =>
    match find_itemprop c prop with
    | some v => some v
    | none => find_itemprop_list rest prop
end

mutual
/-- Document-order (pre-order) listing of a subtree's nodes. -/
def preorder (n : HNode) : List HNode :=
  match n with
  | HNode.mk t a x cs => HNode.mk t a x cs :: preorder_list cs

def preorder_list (cs : List HNode) : List HNode :=
  match cs with
  | [] => []
  | c :: rest => preorder c ++ preorder_list rest
end

/-- The tag whitelist of `text_cleanup`. -/
def valid_tags : List String :=
  ["blockquote", "dd", "div", "dl", "dt", "figcaption", "hr", "li", "ol",
   "p", "pre", "ul", "h1", "h2", "h3", "h4", "h5", "h6", "a", "abbr", "b",
   "bdi", "bdo", "br", "cite", "code", "data", "dfn", "em", "i", "kbd",
   "mark", "q", "rb", "rp", "rt", "rtc", "ruby", "s", "samp", "small",
   "span", "strong", "sub", "sup", "time", "u", "var", "wbr", "caption",
   "col", "colgroup", "table", "tbody", "td", "tfoot", "th", "thead", "tr"]

/-- The keep test of `remove_all_but_text_nodes`: a node survives iff its
tag is whitelisted or it carries an `itemprop` attribute. -/
def keepsNode (vt : List String) (n : HNode) : Bool :=
  vt.contains n.tag || hasAttr n "itemprop"

mutual
/-- `remove_all_but_text_nodes(node, vt)`, expressed as the list of nodes
that stands in `node`'s place afterwards: the (post-order sanitized) node
itself when it passes the keep test, otherwise its sanitized children —
moved out one by one with `addnext`, hence in reversed order — while the
node (with its direct text) is detached. -/
def remove_all_but_text_nodes (n : HNode) (vt : List String) : List HNode :=
  match n with
  | HNode.mk t a x cs =>
    let cs2 := remove_all_children cs vt
    if keepsNode vt (HNode.mk t a x cs) then [HNode.mk t a x cs2]
    else cs2.reverse

/-- The `for child in node` recursion loop: each child is replaced in place
by its replacement list (the pre-fetching lxml iterator skips the freshly
spliced-in grandchildren, which are already sanitized). -/
def remove_all_children (cs : List HNode) (vt : List String) : List HNode :=
  match cs with
  | [] => []
  | c :: rest => remove_all_but_text_nodes c vt ++ remove_all_children rest vt
end

/-- `text_cleanup(node)`: runs the sanitizer at `node` and returns it.  The
callers only pass nodes returned by `find_itemprop`, which carry `itemprop`
and therefore pass the keep test, so the replacement list is the singleton
of the sanitized node; the fallback arm is never exercised by the program. -/
def text_cleanup (n : HNode) : HNode :=
  match remove_all_but_text_nodes n valid_tags with
  | [m] => m
  | _ => n

def attrs_string (a : List (String × String)) : String :=
  a.foldl (fun s p => s ++ " " ++ p.1 ++ "=\"" ++ p.2 ++ "\"") ""

mutual
/-- `lxml.html.tostring(node)` (simplified serializer: open tag with
attributes, direct text, children, close tag). -/
def tostring (n : HNode) : String :=
  match n with
  | HNode.mk t a x cs =>
    "<" ++ t ++ attrs_string a ++ ">" ++ x.getD "" ++ tostring_list cs ++ "</" ++ t ++ ">"

def tostring_list (cs : List HNode) : String :=
  match cs with
  | [] => ""
  | c :: rest => tostring c ++ tostring_list rest
end

/-- Python `s.find(pat)` as an optional index (None standing for -1). -/
def str_find (s pat : String) : Option Nat :=
  (List.range (s.length + 1)).find? (fun i => List.isPrefixOf pat.data (s.data.drop i))

/-- Python `s.rfind(pat)` as an optional index (None standing for -1). -/
def str_rfind (s pat : String) : Option Nat :=
  ((List.range (s.length + 1)).filter
    (fun i => List.isPrefixOf pat.data (s.data.drop i))).getLast?

/-- `turn_into_string(node)`: serialize, drop everything up to and including
the first `>`, then keep everything before the last `</`.  When `find`
returns -1 Python keeps the whole string (`s[0:]`); when `rfind` returns -1
Python drops the final character (`s[:-1]`). -/
def turn_into_string (n : HNode) : String :=
  let s := tostring n
  let s1 := match str_find s ">" with
    | some i => String.mk (s.data.drop (i + 1))
    | none => s
  match str_rfind s1 "</" with
  | some j => String.mk (s1.data.take j)
  | none => String.mk (s1.data.take (s1.length - 1))

/-- A JSON object with string keys and nullable string values, in insertion
order (the model of the Python dicts built by the collectors). -/
abbrev Fields : Type := List (String × Option String)

/-- One optional field of a collector's dict: the key is set only when the
locator found a node. -/
def fieldOpt (key : String) (v : Option (Option String)) : Fields :=
  match v with
  | none => []
  | some x => [(key, x)]

/-- The repeated extraction idiom for count fields: `content` attribute for a
`meta` tag, direct text otherwise. -/
def metaContentOrText (n : HNode) : Option String :=
  if n.tag == "meta" then getAttr n "content" else n.text

/-- The extraction for markup fields: sanitize in place, serialize, strip the
outer tag. -/
def markupValue (n : HNode) : Option String :=
  some (turn_into_string (text_cleanup n))

/-- `collect_question(node)`: the question dict, fields in the source's
assignment order.  Date fields read the located node's `datetime` attribute;
count fields use the meta-content-or-text rule. -/
def collect_question (n : HNode) : Fields :=
  fieldOpt "name_markup" ((find_itemprop n "name").map markupValue) ++
  fieldOpt "text_markup" ((find_itemprop n "text").map markupValue) ++
  fieldOpt "date_created" ((find_itemprop n "dateCreated").map (fun d => getAttr d "datetime")) ++
  fieldOpt "date_modified" ((find_itemprop n "dateModified").map (fun d => getAttr d "datetime")) ++
  fieldOpt "date_published" ((find_itemprop n "datePublished").map (fun d => getAttr d "datetime")) ++
  fieldOpt "upvote_count" ((find_itemprop n "upvoteCount").map metaContentOrText) ++
  fieldOpt "downvote_count" ((find_itemprop n "downvoteCount").map metaContentOrText) ++
  fieldOpt "comment_count" ((find_itemprop n "commentCount").map metaContentOrText) ++
  fieldOpt "answer_count" ((find_itemprop n "answerCount").map metaContentOrText)

/-- `collect_answer(node)`: the answer dict.  `status` is assigned
unconditionally from the root node's own `itemprop` attribute (null when the
attribute is absent). -/
def collect_answer (n : HNode) : Fields :=
  fieldOpt "text_markup" ((find_itemprop n "text").map markupValue) ++
  [("status", getAttr n "itemprop")] ++
  fieldOpt "date_created" ((find_itemprop n "dateCreated").map (fun d => getAttr d "datetime")) ++
  fieldOpt "date_modified" ((find_itemprop n "dateModified").map (fun d => getAttr d "datetime")) ++
  fieldOpt "date_published" ((find_itemprop n "datePublished").map (fun d => getAttr d "datetime")) ++
  fieldOpt "upvote_count" ((find_itemprop n "upvoteCount").map metaContentOrText) ++
  fieldOpt "downvote_count" ((find_itemprop n "downvoteCount").map metaContentOrText) ++
  fieldOpt "comment_count" ((find_itemprop n "commentCount").map metaContentOrText)

/-- `collect_person(node)`.  When no `name` itemprop is located the source
looks up `author` next, but that branch falls off the end of the function
without returning the dict, so the result is `None` whether or not an
`author` node exists; only the `name` branch returns a person. -/
def collect_person (n : HNode) : Option Fields :=
  match find_itemprop n "name" with
  | none =>
    match find_itemprop n "author" with
    | none => none
    | some _ => none
  | some r => some [("author", metaContentOrText r)]

/-- One iteration of the tally loop of `predict_majority_language`:
increment the language's entry, or append a fresh entry with count 1. -/
def count_step (freq : List (String × Nat)) (language : String) : List (String × Nat) :=
  if freq.any (fun p => p.1 == language) then
    freq.map (fun p => if p.1 == language then (p.1, p.2 + 1) else p)
  else freq ++ [(language, 1)]

/-- The `frequency` dict of `predict_majority_language`: keys in first
occurrence order, values the occurrence counts. -/
def build_frequency (languages : List String) : List (String × Nat) :=
  languages.foldl count_step []

/-- One iteration of the selection loop: keep the candidate only when its
count strictly exceeds the best so far. -/
def best_step (best p : String × Nat) : String × Nat :=
  if p.2 > best.2 then p else best

/-- `predict_majority_language(languages)`: tally into an insertion-ordered
frequency dict, then scan the keys in that order keeping the first key whose
count strictly exceeds the running maximum (initially `"-"` with count 0). -/
def predict_majority_language (languages : List String) : String :=
  ((build_frequency languages).foldl best_step ("-", 0)).1

/-- A JSON context threaded through `search_tree`: plain fields plus the
`Answers` key, which is present (`some`) only on contexts that were
initialized with it. -/
inductive JsonCtx where
  | mk : List (String × Option String) → Option (List JsonCtx) → JsonCtx

def JsonCtx.fields : JsonCtx → List (String × Option String)
  | .mk f _ => f

def JsonCtx.answers : JsonCtx → Option (List JsonCtx)
  | .mk _ a => a

/-- `k in d.keys()` for a field dict. -/
def hasKeyF (fs : List (String × Option String)) (k : String) : Bool :=
  fs.any (fun p => p.1 == k)

/-- One Python dict assignment `d[k] = v`: overwrite in place if the key
exists, append otherwise. -/
def dict_assign (fs : List (String × Option String)) (k : String) (v : Option String) :
    List (String × Option String) :=
  if fs.any (fun p => p.1 == k) then
    fs.map (fun p => if p.1 == k then (k, v) else p)
  else fs ++ [(k, v)]

/-- `json_context.update(element)`: assign every field of `element` in
order; the `Answers` slot is untouched. -/
def ctxUpdate (ctx : JsonCtx) (elem : Fields) : JsonCtx :=
  JsonCtx.mk (elem.foldl (fun fs p => dict_assign fs p.1 p.2) ctx.fields) ctx.answers

/-- `has_at_least_Q_or_A(json_question)`: name markup, or text markup, or
some answer with text markup.  (The source indexes `json_question["Answers"]`
directly; every context built by the assembler carries that key.) -/
def has_at_least_Q_or_A (q : JsonCtx) : Bool :=
  hasKeyF q.fields "name_markup" || hasKeyF q.fields "text_markup" ||
    (q.answers.getD []).any (fun a => hasKeyF a.fields "text_markup")

/-- Outcome of `predict_question_language`: a label, the fall-through where
the local variable `language` was never bound (Python `NameError`), the
missing-`Answers`-key error, or unescaping a null markup value. -/
inductive PredictResult where
  | ok : String → PredictResult
  | unbound : PredictResult
  | keyError : PredictResult
  | typeError : PredictResult

/-- The `for answer in json_question["Answers"]` loop of
`predict_question_language`: first answer with a `text_markup` key wins;
falling off the loop leaves `language` unbound. -/
def answer_language_loop (ft unesc : String → String) : List JsonCtx → PredictResult
  | [] => PredictResult.unbound
  | a :: rest =>
    match List.lookup "text_markup" a.fields with
    | some (some s) => PredictResult.ok (ft (unesc s))
    | some none => PredictResult.typeError
    | none => answer_language_loop ft unesc rest

/-- `predict_question_language(json_question, ft_model)` with the fasttext
classifier (label already stripped) and `html.unescape` injected as opaque
string functions. -/
def predict_question_language (ft unesc : String → String) (q : JsonCtx) : PredictResult :=
  match List.lookup "text_markup" q.fields with
  | some (some s) => PredictResult.ok (ft (unesc s))
  | some none => PredictResult.typeError
  | none =>
    match List.lookup "name_markup" q.fields with
    | some (some s) => PredictResult.ok (ft (unesc s))
    | some none => PredictResult.typeError
    | none =>
      match q.answers with
      | none => PredictResult.keyError
      | some as => answer_language_loop ft unesc as

/-- `"itemtype" in node.keys() and "//schema.org/Answer" in node.get("itemtype")`. -/
def is_answer_type (n : HNode) : Bool :=
  hasAttr n "itemtype" && strContains ((getAttr n "itemtype").getD "") "//schema.org/Answer"

def is_question_type (n : HNode) : Bool :=
  hasAttr n "itemtype" && strContains ((getAttr n "itemtype").getD "") "//schema.org/Question"

def is_person_type (n : HNode) : Bool :=
  hasAttr n "itemtype" && strContains ((getAttr n "itemtype").getD "") "//schema.org/Person"

/-- The post-order tail of `search_tree`: dispatch on the (already
recursively processed) node's `itemtype`, merge the collected entity into the
active context, and detach the node when it has a parent.  The first
component is what remains of the node (`none` once detached). -/
def stepPost (n : HNode) (hasParent : Bool) (ctx : JsonCtx) : Option HNode × JsonCtx :=
  if hasAttr n "itemtype" then
    if strContains ((getAttr n "itemtype").getD "") "//schema.org/Question" then
      match ctx.answers with
      | none => (if hasParent then none else some n, ctx)
      | some _ => (if hasParent then none else some n, ctxUpdate ctx (collect_question n))
    else if strContains ((getAttr n "itemtype").getD "") "//schema.org/Answer" then
      (if hasParent then none else some n, ctxUpdate ctx (collect_answer n))
    else if strContains ((getAttr n "itemtype").getD "") "//schema.org/Person" then
      (if hasParent then none else some n,
        match collect_person n with
        | some e => ctxUpdate ctx e
        | none => ctx)
    else (some n, ctx)
  else (some n, ctx)

mutual
/-- `search_tree(node, json_context)`.  On an Answer node: with no `Answers`
slot in the current context, detach the node (when it has a parent) and
return without touching context or subtree; otherwise append a fresh empty
dict to `Answers` and make it the context for the subtree and the post-order
dispatch, writing it back afterwards.  Otherwise recurse into the children
(threading the context and keeping the surviving children) and run the
post-order dispatch. -/
def search_tree (n : HNode) (hasParent : Bool) (ctx : JsonCtx) : Option HNode × JsonCtx :=
  match n with
  | HNode.mk t a x cs =>
    if is_answer_type (HNode.mk t a x cs) then
      match ctx.answers with
      | none => (if hasParent then none else some (HNode.mk t a x cs), ctx)
      | some as =>
        let r := search_children cs (JsonCtx.mk [] none)
        let p := stepPost (HNode.mk t a x r.1) hasParent r.2
        (p.1, JsonCtx.mk ctx.fields (some (as ++ [p.2])))
    else
      let r := search_children cs ctx
      stepPost (HNode.mk t a x r.1) hasParent r.2

/-- The `for child in node` loop of `search_tree`: children are processed in
document order (the pre-fetching iterator is unaffected by a child detaching
itself), the context threads left to right, and detached children disappear
from the child list. -/
def search_children (cs : List HNode) (ctx : JsonCtx) : List HNode × JsonCtx :=
  match cs with
  | [] => ([], ctx)
  | c :: rest =>
    let rc := search_tree c true ctx
    let rr := search_children rest rc.2
    (match rc.1 with
     | some m => m :: rr.1
     | none => rr.1, rr.2)
end

mutual
/-- `get_all_questions(node, question_list)`: pre-order collection of the
roots of Question-typed subtrees, without descending into a match. -/
def get_all_questions (n : HNode) : List HNode :=
  match n with
  | HNode.mk t a x cs =>
    if is_question_type (HNode.mk t a x cs) then [HNode.mk t a x cs]
    else get_all_questions_list cs

def get_all_questions_list (cs : List HNode) : List HNode :=
  match cs with
  | [] => []
  | c :: rest => get_all_questions c ++ get_all_questions_list rest
end

/-- Discovered question roots paired with whether they have a parent in the
page DOM (only the page root itself has none, and it is discovered exactly
when it is itself Question-typed). -/
def question_roots (html_root : HNode) : List (HNode × Bool) :=
  if is_question_type html_root then [(html_root, false)]
  else (get_all_questions html_root).map (fun r => (r, true))

/-- The per-question context built by the assembler: `search_tree` run on a
fresh context whose `Answers` slot is the empty list. -/
def build_question_json (root : HNode) (hasParent : Bool) : JsonCtx :=
  (search_tree root hasParent (JsonCtx.mk [] (some []))).2

/-- The `Questions` list of the record emitted for one page
(`generate_structured_json`, per-page loop body): build a context per
discovered question root, keep exactly those passing
`has_at_least_Q_or_A`. -/
def generate_page_questions (html_root : HNode) : List JsonCtx :=
  ((question_roots html_root).map (fun rp => build_question_json rp.1 rp.2)).filter
    (fun q => has_at_least_Q_or_A q)

mutual
/-- Every node of the subtree passes the sanitizer's keep test. -/
def subtree_clean (n : HNode) (vt : List String) : Bool :=
  match n with
  | HNode.mk t a x cs => keepsNode vt (HNode.mk t a x cs) && forest_clean cs vt

def forest_clean (cs : List HNode) (vt : List String) : Bool :=
  match cs with
  | [] => true
  | c :: rest => subtree_clean c vt && forest_clean rest vt
end

/-- No markup field of the question or of any of its answers holds a null
value (the shape every context built by the collectors has, since markup
values come from `turn_into_string`). -/
def markup_values_ok (q : JsonCtx) : Bool :=
  (List.lookup "text_markup" q.fields != some none) &&
  (List.lookup "name_markup" q.fields != some none) &&
  (q.answers.getD []).all (fun a => List.lookup "text_markup" a.fields != some none)

/-- A question root whose `name` markup survives extraction. -/
def exampleQuestion : HNode :=
  HNode.mk "div" [("itemtype", "https://schema.org/Question")] none
    [HNode.mk "h1" [("itemprop", "name")] (some "Why?") []]

/-- A page holding `exampleQuestion`. -/
def examplePage : HNode := HNode.mk "html" [] none [exampleQuestion]

/-- An Answer-typed node with no surrounding Question context. -/
def strayAnswer : HNode := HNode.mk "div" [("itemtype", "https://schema.org/Answer")] none []

/-- A node tree whose only person markup is an `author` itemprop. -/
def authorOnlyNode : HNode :=
  HNode.mk "div" [] none [HNode.mk "span" [("itemprop", "author")] (some "Alice") []]

/-- A non-`meta` node carrying a `dateCreated` itemprop: its `datetime`
attribute and its direct text differ. -/
def dateSpan : HNode :=
  HNode.mk "span" [("itemprop", "dateCreated"), ("datetime", "2021-01-01")] (some "January") []

/-- A tree whose only dated node is `dateSpan`. -/
def dateTextNode : HNode := HNode.mk "div" [] none [dateSpan]

/-- An Answer root with no `itemprop` attribute at all. -/
def statuslessAnswer : HNode := HNode.mk "div" [("itemtype", "https://schema.org/Answer")] none []

/-- A non-whitelisted node whose only child is itself non-whitelisted and
carries only direct text. -/
def textOnlyWrapper : HNode := HNode.mk "center" [] none [HNode.mk "font" [] (some "hi") []]

/-- A non-whitelisted node with two whitelisted children. -/
def spliceExample : HNode :=
  HNode.mk "center" [] none
    [HNode.mk "b" [] (some "one") [], HNode.mk "i" [] (some "two") []]

/-- A question context carrying only a text markup field. -/
def exampleTextCtx : JsonCtx := JsonCtx.mk [("text_markup", some "hello world")] (some [])

/-! ## Lookup lemmas for the collectors -/

theorem lookup_fieldOpt_eq (k : String) (v : Option (Option String)) :
    List.lookup k (fieldOpt k v) = v := by
  cases v <;> simp [fieldOpt]

@[simp] theorem lookup_fieldOpt_none (k k2 : String) (v : Option (Option String))
    (h : (k == k2) = false) : List.lookup k (fieldOpt k2 v) = none := by
  cases v <;> simp [fieldOpt, List.lookup_cons, h]

theorem cq_lookup_name_markup (n : HNode) :
    List.lookup "name_markup" (collect_question n) =
      (find_itemprop n "name").map markupValue := by
  simp [collect_question, List.lookup_append, lookup_fieldOpt_eq]

theorem cq_lookup_text_markup (n : HNode) :
    List.lookup "text_markup" (collect_question n) =
      (find_itemprop n "text").map markupValue := by
  simp [collect_question, List.lookup_append, lookup_fieldOpt_eq]

theorem cq_lookup_date_created (n : HNode) :
    List.lookup "date_created" (collect_question n) =
      (find_itemprop n "dateCreated").map (fun d => getAttr d "datetime") := by
  simp [collect_question, List.lookup_append, lookup_fieldOpt_eq]

theorem cq_lookup_date_modified (n : HNode) :
    List.lookup "date_modified" (collect_question n) =
      (find_itemprop n "dateModified").map (fun d => getAttr d "datetime") := by
  simp [collect_question, List.lookup_append, lookup_fieldOpt_eq]

theorem cq_lookup_date_published (n : HNode) :
    List.lookup "date_published" (collect_question n) =
      (find_itemprop n "datePublished").map (fun d => getAttr d "datetime") := by
  simp [collect_question, List.lookup_append, lookup_fieldOpt_eq]

theorem cq_lookup_upvote_count (n : HNode) :
    List.lookup "upvote_count" (collect_question n) =
      (find_itemprop n "upvoteCount").map metaContentOrText := by
  simp [collect_question, List.lookup_append, lookup_fieldOpt_eq]

theorem cq_lookup_downvote_count (n : HNode) :
    List.lookup "downvote_count" (collect_question n) =
      (find_itemprop n "downvoteCount").map metaContentOrText := by
  simp [collect_question, List.lookup_append, lookup_fieldOpt_eq]

theorem cq_lookup_comment_count (n : HNode) :
    List.lookup "comment_count" (collect_question n) =
      (find_itemprop n "commentCount").map metaContentOrText := by
  simp [collect_question, List.lookup_append, lookup_fieldOpt_eq]

theorem cq_lookup_answer_count (n : HNode) :
    List.lookup "answer_count" (collect_question n) =
      (find_itemprop n "answerCount").map metaContentOrText := by
  simp [collect_question, List.lookup_append, lookup_fieldOpt_eq]

theorem ca_lookup_text_markup (n : HNode) :
    List.lookup "text_markup" (collect_answer n) =
      (find_itemprop n "text").map markupValue := by
  simp [collect_answer, List.lookup_append, List.lookup_cons, lookup_fieldOpt_eq]

theorem ca_lookup_status (n : HNode) :
    List.lookup "status" (collect_answer n) = some (getAttr n "itemprop") := by
  simp [collect_answer, List.lookup_append, List.lookup_cons]

theorem ca_lookup_date_created (n : HNode) :
    List.lookup "date_created" (collect_answer n) =
      (find_itemprop n "dateCreated").map (fun d => getAttr d "datetime") := by
  simp [collect_answer, List.lookup_append, List.lookup_cons, lookup_fieldOpt_eq]

theorem ca_lookup_date_modified (n : HNode) :
    List.lookup "date_modified" (collect_answer n) =
      (find_itemprop n "dateModified").map (fun d => getAttr d "datetime") := by
  simp [collect_answer, List.lookup_append, List.lookup_cons, lookup_fieldOpt_eq]

theorem ca_lookup_date_published (n : HNode) :
    List.lookup "date_published" (collect_answer n) =
      (find_itemprop n "datePublished").map (fun d => getAttr d "datetime") := by
  simp [collect_answer, List.lookup_append, List.lookup_cons, lookup_fieldOpt_eq]

theorem ca_lookup_upvote_count (n : HNode) :
    List.lookup "upvote_count" (collect_answer n) =
      (find_itemprop n "upvoteCount").map metaContentOrText := by
  simp [collect_answer, List.lookup_append, List.lookup_cons, lookup_fieldOpt_eq]

theorem ca_lookup_downvote_count (n : HNode) :
    List.lookup "downvote_count" (collect_answer n) =
      (find_itemprop n "downvoteCount").map metaContentOrText := by
  simp [collect_answer, List.lookup_append, List.lookup_cons, lookup_fieldOpt_eq]

theorem ca_lookup_comment_count (n : HNode) :
    List.lookup "comment_count" (collect_answer n) =
      (find_itemprop n "commentCount").map metaContentOrText := by
  simp [collect_answer, List.lookup_append, List.lookup_cons, lookup_fieldOpt_eq]

/-! ## Claims -/

/-- C1: a Question JSON context appears in the page record's `Questions`
list only if it has a `name_markup` field, or a `text_markup` field, or at
least one Answer with a `text_markup` field; every context failing
`has_at_least_Q_or_A` is discarded by the Record Assembler. -/
theorem ccqa_c1 (html_root : HNode) (q : JsonCtx)
    (h : q ∈ generate_page_questions html_root) : has_at_least_Q_or_A q = true :=
  (List.mem_filter.mp h).2

theorem ccqa_c1_witness :
    has_at_least_Q_or_A (JsonCtx.mk [("name_markup", some "Why?")] (some [])) = true :=
  ccqa_c1 examplePage (JsonCtx.mk [("name_markup", some "Why?")] (some []))
    (by
      have h : generate_page_questions examplePage =
          [JsonCtx.mk [("name_markup", some "Why?")] (some [])] := rfl
      rw [h]
      exact List.mem_singleton.mpr rfl)

/-- C2: when `search_tree` reaches a node whose `itemtype` contains the
Answer type reference while the current context has no `Answers` slot, the
node is detached (when it has a parent), its subtree is not walked, and the
context comes back unchanged — no Answer record from that subtree is ever
merged anywhere. -/
theorem ccqa_c2 (n : HNode) (hasParent : Bool) (ctx : JsonCtx)
    (h1 : is_answer_type n = true) (h2 : JsonCtx.answers ctx = none) :
    search_tree n hasParent ctx = (if hasParent then none else some n, ctx) := by
  cases n with
  | mk t a x cs =>
    cases ctx with
    | mk fs ans =>
      simp only [JsonCtx.answers] at h2
      subst h2
      simp [search_tree, h1, JsonCtx.answers]

theorem ccqa_c2_witness :
    is_answer_type strayAnswer = true ∧
    JsonCtx.answers (JsonCtx.mk [] none) = none ∧
    search_tree strayAnswer true (JsonCtx.mk [] none) = (none, JsonCtx.mk [] none) := by
  refine ⟨rfl, rfl, ?_⟩
  have h := ccqa_c2 strayAnswer true (JsonCtx.mk [] none) rfl rfl
  simpa using h

/-- C5: evaluating `collect_person` on a tree holding an `author` itemprop
but no `name` itemprop returns `none` — the author branch of the source
locates the node and then falls off the end of the function without
returning the person dict, contradicting its own comment (and the spec),
which say `author` is tried as a fallback for `name`. -/
theorem ccqa_c5 :
    collect_person authorOnlyNode = none ∧
    (find_itemprop authorOnlyNode "author").isSome = true ∧
    find_itemprop authorOnlyNode "name" = none :=
  ⟨rfl, rfl, rfl⟩

/-- C6 counterexample: for a located `dateCreated` node that is not a
`meta` tag, the collected `date_created` value is its `datetime` attribute,
not its direct text as the claim's meta-content-or-text rule predicts. -/
theorem ccqa_c6_counterexample :
    find_itemprop dateTextNode "dateCreated" = some dateSpan ∧
    HNode.tag dateSpan ≠ "meta" ∧
    HNode.text dateSpan = some "January" ∧
    List.lookup "date_created" (collect_question dateTextNode) = some (some "2021-01-01") ∧
    some "2021-01-01" ≠ HNode.text dateSpan := by
  exact ⟨rfl, by decide, rfl, rfl, by decide⟩

/-- C6 (amended): the meta-content-or-text rule governs the count fields
(upvote/downvote/comment/answer counts) of both collectors, while the three
date fields always read the located node's `datetime` attribute, whatever
its tag. -/
theorem ccqa_c6 (n : HNode) :
    (List.lookup "date_created" (collect_question n) =
      (find_itemprop n "dateCreated").map (fun d => getAttr d "datetime")) ∧
    (List.lookup "date_modified" (collect_question n) =
      (find_itemprop n "dateModified").map (fun d => getAttr d "datetime")) ∧
    (List.lookup "date_published" (collect_question n) =
      (find_itemprop n "datePublished").map (fun d => getAttr d "datetime")) ∧
    (List.lookup "upvote_count" (collect_question n) =
      (find_itemprop n "upvoteCount").map metaContentOrText) ∧
    (List.lookup "downvote_count" (collect_question n) =
      (find_itemprop n "downvoteCount").map metaContentOrText) ∧
    (List.lookup "comment_count" (collect_question n) =
      (find_itemprop n "commentCount").map metaContentOrText) ∧
    (List.lookup "answer_count" (collect_question n) =
      (find_itemprop n "answerCount").map metaContentOrText) ∧
    (List.lookup "date_created" (collect_answer n) =
      (find_itemprop n "dateCreated").map (fun d => getAttr d "datetime")) ∧
    (List.lookup "date_modified" (collect_answer n) =
      (find_itemprop n "dateModified").map (fun d => getAttr d "datetime")) ∧
    (List.lookup "date_published" (collect_answer n) =
      (find_itemprop n "datePublished").map (fun d => getAttr d "datetime")) ∧
    (List.lookup "upvote_count" (collect_answer n) =
      (find_itemprop n "upvoteCount").map metaContentOrText) ∧
    (List.lookup "downvote_count" (collect_answer n) =
      (find_itemprop n "downvoteCount").map metaContentOrText) ∧
    (List.lookup "comment_count" (collect_answer n) =
      (find_itemprop n "commentCount").map metaContentOrText) :=
  ⟨cq_lookup_date_created n, cq_lookup_date_modified n, cq_lookup_date_published n,
   cq_lookup_upvote_count n, cq_lookup_downvote_count n, cq_lookup_comment_count n,
   cq_lookup_answer_count n, ca_lookup_date_created n, ca_lookup_date_modified n,
   ca_lookup_date_published n, ca_lookup_upvote_count n, ca_lookup_downvote_count n,
   ca_lookup_comment_count n⟩

/-- C7 counterexample: `collect_answer` on an Answer root with no `itemprop`
attribute emits a `status` field whose value is null. -/
theorem ccqa_c7_counterexample :
    hasKeyF (collect_answer statuslessAnswer) "status" = true ∧
    List.lookup "status" (collect_answer statuslessAnswer) = some none :=
  ⟨rfl, rfl⟩

/-- C7 (amended): a field key is present in a collected Answer record
exactly when its node was located, but a present key's value may be null
when the located node lacks the relevant attribute or text; the markup
field, whose value comes from the serializer, is never null; and the
`status` field is always present and holds the Answer root's own `itemprop`
attribute value, which is null when the root carries none. -/
theorem ccqa_c7 (n : HNode) :
    List.lookup "status" (collect_answer n) = some (getAttr n "itemprop") ∧
    ((List.lookup "text_markup" (collect_answer n)).isSome = (find_itemprop n "text").isSome) ∧
    ((List.lookup "date_created" (collect_answer n)).isSome =
      (find_itemprop n "dateCreated").isSome) ∧
    ((List.lookup "date_modified" (collect_answer n)).isSome =
      (find_itemprop n "dateModified").isSome) ∧
    ((List.lookup "date_published" (collect_answer n)).isSome =
      (find_itemprop n "datePublished").isSome) ∧
    ((List.lookup "upvote_count" (collect_answer n)).isSome =
      (find_itemprop n "upvoteCount").isSome) ∧
    ((List.lookup "downvote_count" (collect_answer n)).isSome =
      (find_itemprop n "downvoteCount").isSome) ∧
    ((List.lookup "comment_count" (collect_answer n)).isSome =
      (find_itemprop n "commentCount").isSome) ∧
    List.lookup "text_markup" (collect_answer n) ≠ some none := by
  refine ⟨ca_lookup_status n, ?_, ?_, ?_, ?_, ?_, ?_, ?_, ?_⟩
  · rw [ca_lookup_text_markup n]
    cases find_itemprop n "text" <;> rfl
  · rw [ca_lookup_date_created n]
    cases find_itemprop n "dateCreated" <;> rfl
  · rw [ca_lookup_date_modified n]
    cases find_itemprop n "dateModified" <;> rfl
  · rw [ca_lookup_date_published n]
    cases find_itemprop n "datePublished" <;> rfl
  · rw [ca_lookup_upvote_count n]
    cases find_itemprop n "upvoteCount" <;> rfl
  · rw [ca_lookup_downvote_count n]
    cases find_itemprop n "downvoteCount" <;> rfl
  · rw [ca_lookup_comment_count n]
    cases find_itemprop n "commentCount" <;> rfl
  · rw [ca_lookup_text_markup n]
    cases find_itemprop n "text" <;> simp [markupValue]

mutual
theorem find_itemprop_eq_find (n : HNode) (prop : String) :
    find_itemprop n prop = (preorder n).find? (fun m => matchesProp m prop) := by
  cases n with
  | mk t a x cs =>
    by_cases h : matchesProp (HNode.mk t a x cs) prop
    · simp [find_itemprop, preorder, h, List.find?_cons_of_pos]
    · simp [find_itemprop, preorder, h, List.find?_cons_of_neg,
        find_itemprop_list_eq_find cs prop]

theorem find_itemprop_list_eq_find (cs : List HNode) (prop : String) :
    find_itemprop_list cs prop = (preorder_list cs).find? (fun m => matchesProp m prop) := by
  cases cs with
  | nil => simp [find_itemprop_list, preorder_list]
  | cons c rest =>
    rw [show preorder_list (c :: rest) = preorder c ++ preorder_list rest from rfl]
    rw [List.find?_append]
    rw [show find_itemprop_list (c :: rest) prop =
      (match find_itemprop c prop with
       | some v => some v
       | none => find_itemprop_list rest prop) from rfl]
    rw [find_itemprop_eq_find c prop, find_itemprop_list_eq_find rest prop]
    cases (preorder c).find? (fun m => matchesProp m prop) <;> simp [Option.or]
end

/-- C9: `find_itemprop` equals the first node of the pre-order (document
order) listing of the subtree — the node itself listed before its children —
that passes the substring match on its `itemprop` attribute, and it is
absent exactly when no node of the subtree matches. -/
theorem ccqa_c9 (n : HNode) (prop : String) :
    find_itemprop n prop = (preorder n).find? (fun m => matchesProp m prop) ∧
    preorder n = n :: preorder_list (HNode.children n) ∧
    (find_itemprop n prop = none ↔ ∀ m ∈ preorder n, matchesProp m prop = false) := by
  refine ⟨find_itemprop_eq_find n prop, ?_, ?_⟩
  · cases n with
    | mk t a x cs => rfl
  · rw [find_itemprop_eq_find n prop]
    simp [List.find?_eq_none]

theorem forest_clean_iff (cs : List HNode) (vt : List String) :
    forest_clean cs vt = true ↔ ∀ m ∈ cs, subtree_clean m vt = true := by
  induction cs with
  | nil => simp [forest_clean]
  | cons c rest ih => simp [forest_clean, ih]

theorem keepsNode_children_irrelevant (vt : List String) (t : String)
    (a : List (String × String)) (x : Option String) (cs cs2 : List HNode) :
    keepsNode vt (HNode.mk t a x cs2) = keepsNode vt (HNode.mk t a x cs) := rfl

mutual
theorem clean_of_remove (n : HNode) (vt : List String) :
    ∀ m ∈ remove_all_but_text_nodes n vt, subtree_clean m vt = true := by
  cases n with
  | mk t a x cs =>
    intro m hm
    by_cases h : keepsNode vt (HNode.mk t a x cs) = true
    · rw [show remove_all_but_text_nodes (HNode.mk t a x cs) vt =
        [HNode.mk t a x (remove_all_children cs vt)] from by
          simp [remove_all_but_text_nodes, h]] at hm
      rw [List.mem_singleton] at hm
      subst hm
      rw [show subtree_clean (HNode.mk t a x (remove_all_children cs vt)) vt =
        (keepsNode vt (HNode.mk t a x (remove_all_children cs vt)) &&
          forest_clean (remove_all_children cs vt) vt) from rfl]
      rw [keepsNode_children_irrelevant vt t a x cs, h]
      rw [Bool.true_and, forest_clean_iff]
      exact clean_of_remove_list cs vt
    · rw [show remove_all_but_text_nodes (HNode.mk t a x cs) vt =
        (remove_all_children cs vt).reverse from by
          simp [remove_all_but_text_nodes, h]] at hm
      rw [List.mem_reverse] at hm
      exact clean_of_remove_list cs vt m hm

theorem clean_of_remove_list (cs : List HNode) (vt : List String) :
    ∀ m ∈ remove_all_children cs vt, subtree_clean m vt = true := by
  cases cs with
  | nil => intro m hm; simp [remove_all_children] at hm
  | cons c rest =>
    intro m hm
    rw [show remove_all_children (c :: rest) vt =
      remove_all_but_text_nodes c vt ++ remove_all_children rest vt from rfl] at hm
    rcases List.mem_append.mp hm with h1 | h2
    · exact clean_of_remove c vt m h1
    · exact clean_of_remove_list rest vt m h2
end

mutual
theorem remove_fixed (n : HNode) (vt : List String) (h : subtree_clean n vt = true) :
    remove_all_but_text_nodes n vt = [n] := by
  cases n with
  | mk t a x cs =>
    rw [show subtree_clean (HNode.mk t a x cs) vt =
      (keepsNode vt (HNode.mk t a x cs) && forest_clean cs vt) from rfl] at h
    rw [Bool.and_eq_true] at h
    simp [remove_all_but_text_nodes, h.1, remove_fixed_list cs vt h.2]

theorem remove_fixed_list (cs : List HNode) (vt : List String) (h : forest_clean cs vt = true) :
    remove_all_children cs vt = cs := by
  cases cs with
  | nil => rfl
  | cons c rest =>
    rw [show forest_clean (c :: rest) vt =
      (subtree_clean c vt && forest_clean rest vt) from rfl] at h
    rw [Bool.and_eq_true] at h
    rw [show remove_all_children (c :: rest) vt =
      remove_all_but_text_nodes c vt ++ remove_all_children rest vt from rfl]
    rw [remove_fixed c vt h.1, remove_fixed_list rest vt h.2]
    rfl
end

theorem remove_fixed_of_mem (cs : List HNode)
    (h : ∀ m ∈ cs, subtree_clean m valid_tags = true) :
    remove_all_children cs valid_tags = cs :=
  remove_fixed_list cs valid_tags ((forest_clean_iff cs valid_tags).mpr h)

/-- C4: one pass of the Tag Sanitizer reaches a fixed point — re-running the
sanitizer on the replacement list of a first pass returns it unchanged, and
`text_cleanup` is idempotent. -/
theorem ccqa_c4 (n : HNode) :
    remove_all_children (remove_all_but_text_nodes n valid_tags) valid_tags =
      remove_all_but_text_nodes n valid_tags ∧
    text_cleanup (text_cleanup n) = text_cleanup n := by
  constructor
  · exact remove_fixed_of_mem _ (clean_of_remove n valid_tags)
  · rcases hr : remove_all_but_text_nodes n valid_tags with _ | ⟨m, _ | ⟨m2, rest⟩⟩
    · simp [text_cleanup, hr]
    · have hm : subtree_clean m valid_tags = true :=
        clean_of_remove n valid_tags m (by rw [hr]; exact List.mem_singleton.mpr rfl)
      have h1 : text_cleanup n = m := by simp [text_cleanup, hr]
      rw [h1]
      simp [text_cleanup, remove_fixed m valid_tags hm]
    · simp [text_cleanup, hr]

/-- C3 counterexample: `textOnlyWrapper` fails the keep test and its only
child subtree (a non-whitelisted, itemprop-free node holding the text "hi")
is erased entirely by sanitization — the child is not re-inserted anywhere
and the text it contains is lost, against the claim's "no child subtree (and
no text it contains) is lost". -/
theorem ccqa_c3_counterexample :
    keepsNode valid_tags textOnlyWrapper = false ∧
    HNode.children textOnlyWrapper = [HNode.mk "font" [] (some "hi") []] ∧
    remove_all_but_text_nodes textOnlyWrapper valid_tags = [] :=
  ⟨rfl, rfl, rfl⟩

/-- C3 (amended): for a node failing the keep test, the splice re-inserts
exactly its already-sanitized children (in reversed document order) before
the node is detached, so nothing that survived the recursive pass over the
children is lost at that step; however a child that itself fails the keep
test is unwrapped in turn, and the direct text of every removed node is
dropped with it. -/
theorem ccqa_c3 (t : String) (a : List (String × String)) (x : Option String)
    (cs : List HNode) (h : keepsNode valid_tags (HNode.mk t a x cs) = false) :
    remove_all_but_text_nodes (HNode.mk t a x cs) valid_tags =
      (remove_all_children cs valid_tags).reverse ∧
    ∀ m ∈ remove_all_children cs valid_tags,
      m ∈ remove_all_but_text_nodes (HNode.mk t a x cs) valid_tags := by
  have he : remove_all_but_text_nodes (HNode.mk t a x cs) valid_tags =
      (remove_all_children cs valid_tags).reverse := by
    simp [remove_all_but_text_nodes, h]
  refine ⟨he, ?_⟩
  intro m hm
  rw [he, List.mem_reverse]
  exact hm

theorem ccqa_c3_witness :
    keepsNode valid_tags spliceExample = false ∧
    remove_all_but_text_nodes spliceExample valid_tags =
      (remove_all_children (HNode.children spliceExample) valid_tags).reverse ∧
    remove_all_but_text_nodes spliceExample valid_tags =
      [HNode.mk "i" [] (some "two") [], HNode.mk "b" [] (some "one") []] := by
  refine ⟨rfl, ?_, rfl⟩
  exact (ccqa_c3 "center" [] none
    [HNode.mk "b" [] (some "one") [], HNode.mk "i" [] (some "two") []] rfl).1

theorem count_step_inv (seen : List String) (a : String) (acc : List (String × Nat))
    (hacc : ∀ p ∈ acc, p.2 = seen.count p.1 ∧ 0 < p.2 ∧ p.1 ∈ seen)
    (hkeys : ∀ k ∈ seen, acc.any (fun p => p.1 == k) = true) :
    (∀ p ∈ count_step acc a,
      p.2 = (seen ++ [a]).count p.1 ∧ 0 < p.2 ∧ p.1 ∈ seen ++ [a]) ∧
    (∀ k ∈ seen ++ [a], (count_step acc a).any (fun p => p.1 == k) = true) := by
  by_cases hin : acc.any (fun p => p.1 == a) = true
  · rw [show count_step acc a =
      acc.map (fun p => if p.1 == a then (p.1, p.2 + 1) else p) from by
        simp [count_step, hin]]
    constructor
    · intro p' hp'
      obtain ⟨p, hp, himg⟩ := List.mem_map.mp hp'
      obtain ⟨hc, hpos, hmem⟩ := hacc p hp
      by_cases hpa : p.1 = a
      · rw [if_pos (by simpa using hpa)] at himg
        subst himg
        refine ⟨?_, by omega, by simp [hmem]⟩
        simp only [List.count_append, hpa, List.count_singleton]
        simp [hc, hpa]
      · rw [if_neg (by simpa using hpa)] at himg
        subst himg
        refine ⟨?_, hpos, by simp [hmem]⟩
        simp only [List.count_append, List.count_singleton]
        have : (a == p.1) = false := by simpa using fun hh => hpa hh.symm
        simp [hc, this]
    · intro k hk
      rw [List.any_eq_true]
      rcases List.mem_append.mp hk with hk1 | hk2
      · obtain ⟨p, hp, hpk⟩ := List.any_eq_true.mp (hkeys k hk1)
        refine ⟨if p.1 == a then (p.1, p.2 + 1) else p, List.mem_map.mpr ⟨p, hp, rfl⟩, ?_⟩
        by_cases hpa : (p.1 == a) = true <;> simp [hpa, hpk]
      · rw [List.mem_singleton] at hk2
        subst hk2
        obtain ⟨p, hp, hpk⟩ := List.any_eq_true.mp hin
        refine ⟨if p.1 == k then (p.1, p.2 + 1) else p, List.mem_map.mpr ⟨p, hp, rfl⟩, ?_⟩
        simp [hpk]
  · rw [show count_step acc a = acc ++ [(a, 1)] from by simp [count_step, hin]]
    have hanot : a ∉ seen := by
      intro ha
      exact hin (hkeys a ha)
    have haccne : ∀ p ∈ acc, p.1 ≠ a := by
      intro p hp hpa
      exact hin (List.any_eq_true.mpr ⟨p, hp, by simpa using hpa⟩)
    constructor
    · intro p hp
      rcases List.mem_append.mp hp with hp1 | hp2
      · obtain ⟨hc, hpos, hmem⟩ := hacc p hp1
        refine ⟨?_, hpos, by simp [hmem]⟩
        have : (a == p.1) = false := by
          simpa using fun hh => haccne p hp1 hh.symm
        simp only [List.count_append, List.count_singleton]
        simp [hc, this]
      · rw [List.mem_singleton] at hp2
        subst hp2
        refine ⟨?_, by omega, by simp⟩
        have h0 : seen.count a = 0 := List.count_eq_zero.mpr hanot
        simp only [List.count_append, List.count_singleton, h0]
        simp
    · intro k hk
      rw [List.any_eq_true]
      rcases List.mem_append.mp hk with hk1 | hk2
      · obtain ⟨p, hp, hpk⟩ := List.any_eq_true.mp (hkeys k hk1)
        exact ⟨p, List.mem_append.mpr (Or.inl hp), hpk⟩
      · rw [List.mem_singleton] at hk2
        subst hk2
        exact ⟨(k, 1), List.mem_append.mpr (Or.inr (List.mem_singleton.mpr rfl)), by simp⟩

theorem build_frequency_fold_inv (l seen : List String) (acc : List (String × Nat))
    (hacc : ∀ p ∈ acc, p.2 = seen.count p.1 ∧ 0 < p.2 ∧ p.1 ∈ seen)
    (hkeys : ∀ k ∈ seen, acc.any (fun p => p.1 == k) = true) :
    (∀ p ∈ l.foldl count_step acc,
      p.2 = (seen ++ l).count p.1 ∧ 0 < p.2 ∧ p.1 ∈ seen ++ l) ∧
    (∀ k ∈ seen ++ l, (l.foldl count_step acc).any (fun p => p.1 == k) = true) := by
  induction l generalizing seen acc with
  | nil =>
    simp only [List.foldl_nil, List.append_nil]
    exact ⟨hacc, hkeys⟩
  | cons a rest ih =>
    have step := count_step_inv seen a acc hacc hkeys
    have hrec := ih (seen ++ [a]) (count_step acc a) step.1 step.2
    rw [List.foldl_cons]
    constructor
    · intro p hp
      have := hrec.1 p hp
      simpa [List.append_assoc] using this
    · intro k hk
      apply hrec.2
      simpa [List.append_assoc] using hk

theorem build_frequency_spec (l : List String) :
    (∀ p ∈ build_frequency l, p.2 = l.count p.1 ∧ 0 < p.2 ∧ p.1 ∈ l) ∧
    (∀ k ∈ l, (build_frequency l).any (fun p => p.1 == k) = true) := by
  have h := build_frequency_fold_inv l [] [] (by simp) (by simp)
  simpa [build_frequency] using h

theorem best_fold_spec (fs : List (String × Nat)) (b : String × Nat) :
    (fs.foldl best_step b = b ∨ fs.foldl best_step b ∈ fs) ∧
    b.2 ≤ (fs.foldl best_step b).2 ∧
    ∀ p ∈ fs, p.2 ≤ (fs.foldl best_step b).2 := by
  induction fs generalizing b with
  | nil => simp
  | cons q rest ih =>
    obtain ⟨hmem, hba, hall⟩ := ih (best_step b q)
    rw [List.foldl_cons]
    have hbq : b.2 ≤ (best_step b q).2 := by
      by_cases h : q.2 > b.2
      · simp only [best_step, if_pos h]
        omega
      · simp only [best_step, if_neg h]
        omega
    have hqq : q.2 ≤ (best_step b q).2 := by
      by_cases h : q.2 > b.2
      · simp only [best_step, if_pos h]
        omega
      · simp only [best_step, if_neg h]
        omega
    refine ⟨?_, le_trans hbq hba, ?_⟩
    · rcases hmem with h | h
      · by_cases hq : q.2 > b.2
        · rw [h, show best_step b q = q from by simp [best_step, hq]]
          exact Or.inr (List.mem_cons_self q rest)
        · rw [h, show best_step b q = b from by simp [best_step, hq]]
          exact Or.inl rfl
      · exact Or.inr (List.mem_cons_of_mem q h)
    · intro p hp
      rcases List.mem_cons.mp hp with h | h
      · subst h
        exact le_trans hqq hba
      · exact hall p h

theorem predict_majority_max (l : List String) (hl : l ≠ []) :
    predict_majority_language l ∈ l ∧
    ∀ x ∈ l, l.count x ≤ l.count (predict_majority_language l) := by
  obtain ⟨spec1, spec2⟩ := build_frequency_spec l
  obtain ⟨hmem, hb, hmax⟩ := best_fold_spec (build_frequency l) ("-", 0)
  have hrdef : predict_majority_language l =
      ((build_frequency l).foldl best_step ("-", 0)).1 := rfl
  obtain ⟨k₀, hk₀⟩ := List.exists_mem_of_ne_nil l hl
  obtain ⟨p₀, hp₀F, hp₀k⟩ := List.any_eq_true.mp (spec2 k₀ hk₀)
  have hp₀pos : 0 < p₀.2 := (spec1 p₀ hp₀F).2.1
  have hrF : (build_frequency l).foldl best_step ("-", 0) ∈ build_frequency l := by
    rcases hmem with h | h
    · exfalso
      have h2 : p₀.2 ≤ ((build_frequency l).foldl best_step ("-", 0)).2 := hmax p₀ hp₀F
      rw [h] at h2
      simp at h2
      omega
    · exact h
  obtain ⟨hrcount, hrpos, hrmem⟩ := spec1 _ hrF
  refine ⟨by rw [hrdef]; exact hrmem, ?_⟩
  intro x hx
  obtain ⟨px, hpxF, hpxk⟩ := List.any_eq_true.mp (spec2 x hx)
  obtain ⟨hpxcount, hpxpos, hpxmem⟩ := spec1 px hpxF
  have hx1 : px.1 = x := by simpa using hpxk
  rw [hrdef, ← hrcount]
  calc l.count x = px.2 := by rw [hpxcount, hx1]
  _ ≤ _ := hmax px hpxF

/-- C8: for every non-empty label list, `predict_majority_language` returns
a label from the list whose occurrence count is maximal; on `[en, en, fr]` it
returns `en`, and on the tie `[en, fr]` it returns `en`, the label observed
first while tallying. -/
theorem ccqa_c8 :
    (∀ l : List String, l ≠ [] →
      predict_majority_language l ∈ l ∧
      ∀ x ∈ l, l.count x ≤ l.count (predict_majority_language l)) ∧
    predict_majority_language ["en", "en", "fr"] = "en" ∧
    predict_majority_language ["en", "fr"] = "en" :=
  ⟨predict_majority_max, rfl, rfl⟩

theorem ccqa_c8_witness :
    predict_majority_language ["en", "fr", "en"] ∈ ["en", "fr", "en"] ∧
    ∀ x ∈ ["en", "fr", "en"],
      List.count x ["en", "fr", "en"] ≤
        List.count (predict_majority_language ["en", "fr", "en"]) ["en", "fr", "en"] := by
  have h := ccqa_c8.1 ["en", "fr", "en"] (by decide)
  exact ⟨h.1, h.2⟩

theorem hasKeyF_eq_lookup_isSome (fs : Fields) (k : String) :
    hasKeyF fs k = (List.lookup k fs).isSome := by
  induction fs with
  | nil => rfl
  | cons p rest ih =>
    obtain ⟨k1, v1⟩ := p
    by_cases h : k1 = k
    · subst h
      simp [hasKeyF, List.lookup_cons]
    · have h1 : (k1 == k) = false := by simpa using h
      have h2 : (k == k1) = false := by simpa using fun hh => h hh.symm
      simpa [hasKeyF, List.lookup_cons, h1, h2] using ih

theorem answer_loop_spec (ft unesc : String → String) (as : List JsonCtx)
    (h : as.any (fun a => hasKeyF (JsonCtx.fields a) "text_markup") = true) :
    answer_language_loop ft unesc as ≠ PredictResult.unbound ∧
    (as.all (fun a => List.lookup "text_markup" (JsonCtx.fields a) != some none) = true →
      ∃ lg, answer_language_loop ft unesc as = PredictResult.ok lg) := by
  induction as with
  | nil => simp at h
  | cons a rest ih =>
    rw [List.any_cons] at h
    cases hl : List.lookup "text_markup" (JsonCtx.fields a) with
    | some v =>
      cases v with
      | some s =>
        rw [show answer_language_loop ft unesc (a :: rest) =
          PredictResult.ok (ft (unesc s)) from by simp [answer_language_loop, hl]]
        exact ⟨fun hc => PredictResult.noConfusion hc, fun _ => ⟨ft (unesc s), rfl⟩⟩
      | none =>
        rw [show answer_language_loop ft unesc (a :: rest) =
          PredictResult.typeError from by simp [answer_language_loop, hl]]
        refine ⟨fun hc => PredictResult.noConfusion hc, ?_⟩
        intro hall
        rw [List.all_cons, Bool.and_eq_true] at hall
        rw [hl] at hall
        simp at hall
    | none =>
      have hhead : hasKeyF (JsonCtx.fields a) "text_markup" = false := by
        rw [hasKeyF_eq_lookup_isSome, hl]
        rfl
      rw [hhead] at h
      simp only [Bool.false_or] at h
      have hrec := ih h
      rw [show answer_language_loop ft unesc (a :: rest) =
        answer_language_loop ft unesc rest from by simp [answer_language_loop, hl]]
      refine ⟨hrec.1, ?_⟩
      intro hall
      rw [List.all_cons, Bool.and_eq_true] at hall
      exact hrec.2 hall.2

/-- C10: for every question context passing the retention filter
`has_at_least_Q_or_A`, the fall-through of `predict_question_language` in
which the local variable `language` is never bound is unreachable; when
moreover the markup values are genuine strings (as the collectors always
produce), a language label is actually assigned. -/
theorem ccqa_c10 (ft unesc : String → String) (q : JsonCtx)
    (h : has_at_least_Q_or_A q = true) :
    predict_question_language ft unesc q ≠ PredictResult.unbound ∧
    (markup_values_ok q = true →
      ∃ lg, predict_question_language ft unesc q = PredictResult.ok lg) := by
  cases h1 : List.lookup "text_markup" (JsonCtx.fields q) with
  | some v =>
    cases v with
    | some s =>
      rw [show predict_question_language ft unesc q =
        PredictResult.ok (ft (unesc s)) from by simp [predict_question_language, h1]]
      exact ⟨fun hc => PredictResult.noConfusion hc, fun _ => ⟨ft (unesc s), rfl⟩⟩
    | none =>
      rw [show predict_question_language ft unesc q =
        PredictResult.typeError from by simp [predict_question_language, h1]]
      refine ⟨fun hc => PredictResult.noConfusion hc, ?_⟩
      intro hok
      rw [markup_values_ok, Bool.and_eq_true] at hok
      rw [h1] at hok
      simp at hok
  | none =>
    cases h2 : List.lookup "name_markup" (JsonCtx.fields q) with
    | some v =>
      cases v with
      | some s =>
        rw [show predict_question_language ft unesc q =
          PredictResult.ok (ft (unesc s)) from by simp [predict_question_language, h1, h2]]
        exact ⟨fun hc => PredictResult.noConfusion hc, fun _ => ⟨ft (unesc s), rfl⟩⟩
      | none =>
        rw [show predict_question_language ft unesc q =
          PredictResult.typeError from by simp [predict_question_language, h1, h2]]
        refine ⟨fun hc => PredictResult.noConfusion hc, ?_⟩
        intro hok
        rw [markup_values_ok, Bool.and_eq_true, Bool.and_eq_true] at hok
        rw [h2] at hok
        simp at hok
    | none =>
      have hk1 : hasKeyF (JsonCtx.fields q) "text_markup" = false := by
        rw [hasKeyF_eq_lookup_isSome, h1]
        rfl
      have hk2 : hasKeyF (JsonCtx.fields q) "name_markup" = false := by
        rw [hasKeyF_eq_lookup_isSome, h2]
        rfl
      rw [has_at_least_Q_or_A, hk1, hk2] at h
      simp only [Bool.false_or] at h
      cases h3 : JsonCtx.answers q with
      | none =>
        rw [h3] at h
        simp at h
      | some as =>
        rw [h3] at h
        simp only [Option.getD_some] at h
        have hloop := answer_loop_spec ft unesc as h
        rw [show predict_question_language ft unesc q =
          answer_language_loop ft unesc as from by simp [predict_question_language, h1, h2, h3]]
        refine ⟨hloop.1, ?_⟩
        intro hok
        apply hloop.2
        rw [markup_values_ok, Bool.and_eq_true, h3] at hok
        exact hok.2

theorem ccqa_c10_witness :
    has_at_least_Q_or_A exampleTextCtx = true ∧
    predict_question_language id id exampleTextCtx ≠ PredictResult.unbound ∧
    markup_values_ok exampleTextCtx = true ∧
    predict_question_language id id exampleTextCtx = PredictResult.ok "hello world" := by
  have h := ccqa_c10 id id exampleTextCtx rfl
  exact ⟨rfl, h.1, rfl, rfl⟩
